import Mathlib

/-!
Biblioteca_Mobil: the listing screen of `src/App.js`

A shallow embedding of the `App` component: its four pieces of component state,
`fetchStorageItems`, the derived `filteredItems`, `handleOpenLink` and the event
handlers wired in the JSX, followed by the properties of the listing, the search
filter and the welcome pop-up.

JavaScript strings are sequences of UTF-16 code units.  The host functions the
component calls (`String.prototype.toLowerCase`, `String.prototype.includes`,
`String.prototype.localeCompare`, `Array.prototype.sort`, `Promise.all`) are
embedded after ECMA-262; the Unicode case table and the collation are taken as
data of a `Platform`, the Firebase SDK and `Linking` as records of functions.
-/

namespace BibliotecaMobil

/-! ## JavaScript strings -/

/-- A JavaScript string: its UTF-16 code units. -/
abbrev JSString := List Nat

/-- UTF16EncodeCodePoint of ECMA-262. -/
def utf16EncodeCodePoint (cp : Nat) : List Nat :=
  if cp ≤ 0xFFFF then [cp]
  else [(cp - 0x10000) / 0x400 + 0xD800, (cp - 0x10000) % 0x400 + 0xDC00]

/-- A string literal as a JavaScript string. -/
def js (s : String) : JSString :=
  s.toList.flatMap (fun c => utf16EncodeCodePoint c.toNat)

def isLeadingSurrogate (c : Nat) : Bool := decide (0xD800 ≤ c) && decide (c ≤ 0xDBFF)

def isTrailingSurrogate (c : Nat) : Bool := decide (0xDC00 ≤ c) && decide (c ≤ 0xDFFF)

/-- StringToCodePoints of ECMA-262: surrogate pairs are joined, a lone surrogate
is kept as a code point of its own. -/
def stringToCodePoints : JSString → List Nat
  | [] => []
  | [c] => [c]
  | c1 :: c2 :: rest =>
    if isLeadingSurrogate c1 && isTrailingSurrogate c2 then
      ((c1 - 0xD800) * 0x400 + (c2 - 0xDC00) + 0x10000) :: stringToCodePoints rest
    else c1 :: stringToCodePoints (c2 :: rest)

/-- CodePointsToString of ECMA-262. -/
def codePointsToString (cps : List Nat) : JSString :=
  cps.flatMap utf16EncodeCodePoint

/-- The Unicode default case conversion toLowercase(X): every code point is
replaced by its lowercase mapping, which may look at the code points before and
after it (Final_Sigma).  `mapping before c after` is the Unicode table. -/
def toLowercase (mapping : List Nat → Nat → List Nat → List Nat) :
    List Nat → List Nat → List Nat
  | _, [] => []
  | before, c :: after => mapping before c after ++ toLowercase mapping (before ++ [c]) after

/-- What the component takes from the JavaScript host: the Unicode lowercase
mapping behind `toLowerCase` and the collation behind `localeCompare`. -/
structure Platform where
  lowercaseMapping : List Nat → Nat → List Nat → List Nat
  localeCompare : JSString → JSString → Int

/-- The method `String.prototype.toLowerCase`. -/
def toLowerCase (pf : Platform) (s : JSString) : JSString :=
  codePointsToString (toLowercase pf.lowercaseMapping [] (stringToCodePoints s))

/-- Whether `t` is found in `s` at index 0. -/
def startsWith : JSString → JSString → Bool
  | _, [] => true
  | [], _ :: _ => false
  | c :: s, d :: t => decide (c = d) && startsWith s t

/-- The method `String.prototype.includes` with position 0: StringIndexOf tries
every index from the left. -/
def includes : JSString → JSString → Bool
  | [], t => startsWith [] t
  | c :: s, t => startsWith (c :: s) t || includes s t

/-! ## `Array.prototype.sort` -/

/-- Insertion of `x` in front of the first element it does not compare greater
than. -/
def sortInsert {α : Type} (comparefn : α → α → Int) (x : α) : List α → List α
  | [] => [x]
  | y :: ys => if comparefn x y ≤ 0 then x :: y :: ys else y :: sortInsert comparefn x ys

/-- The method `Array.prototype.sort` with a comparator: `x` goes after `y`
only when `comparefn(x, y) > 0`.  ECMA-262 requires the sort to be stable; it
is embedded as the stable insertion sort. -/
def sort {α : Type} (comparefn : α → α → Int) : List α → List α
  | [] => []
  | x :: xs => sortInsert comparefn x (sort comparefn xs)

/-! ## `Promise.all` -/

/-- The function `Promise.all` over promises that have settled: the values in
the order of the promises when all are fulfilled, a rejection as soon as one is
rejected. -/
def promiseAll {ε α : Type} : List (Except ε α) → Except ε (List α)
  | [] => .ok []
  | .error e :: _ => .error e
  | .ok v :: ps =>
    match promiseAll ps with
    | .ok vs => .ok (v :: vs)
    | .error e => .error e

/-! ## Data model -/

/-- An element of `itemsList`: the object `{ name, url }` built in
`fetchStorageItems`. -/
structure Entry where
  name : JSString
  url : JSString
  deriving DecidableEq, Repr

/-- A thrown JavaScript error. -/
structure JSError where
  message : String
  deriving DecidableEq, Repr

/-- A Firebase `StorageReference`. -/
structure StorageReference where
  fullPath : JSString
  name : JSString
  deriving DecidableEq, Repr

/-- A Firebase `ListResult`. -/
structure ListResult where
  prefixes : List StorageReference
  items : List StorageReference
  deriving Repr

/-- The Firebase storage behind the SDK at the time of a call: `listAll` and
`getDownloadURL` either resolve or reject. -/
structure Firebase where
  listAll : StorageReference → Except JSError ListResult
  getDownloadURL : StorageReference → Except JSError JSString

/-- The call `ref(storage, path)`: the reference to `path`, named by what
follows its last slash (code unit 47). -/
def ref (path : JSString) : StorageReference :=
  { fullPath := path, name := (path.reverse.takeWhile (fun c => c != 47)).reverse }

/-- The React Native `Linking` module at the time of a call. -/
structure Linking where
  openURL : JSString → Except JSError Unit

/-- The four `useState` cells of `App`. -/
structure AppState where
  currentPath : JSString
  itemsList : List Entry
  searchTerm : JSString
  showPopup : Bool
  deriving DecidableEq, Repr

/-- The component state together with what was written by `console.error`. -/
structure Runtime where
  state : AppState
  console : List (String × JSError)
  deriving DecidableEq, Repr

/-- The state at mount: the initial values of the `useState` calls. -/
def initialState : AppState :=
  { currentPath := [], itemsList := [], searchTerm := [], showPopup := true }

def initialRuntime : Runtime :=
  { state := initialState, console := [] }

/-! ## The component -/

/-- The comparator `(a, b) => a.name.localeCompare(b.name)`. -/
def compareByName (pf : Platform) (a b : Entry) : Int :=
  pf.localeCompare a.name b.name

/-- The body of the `try` block of `fetchStorageItems` up to `sortedItems`. -/
def fetchSortedItems (pf : Platform) (fb : Firebase) (path : JSString) :
    Except JSError (List Entry) := do
  let directoryRef := ref path
  let response ← fb.listAll directoryRef
  let filePromises ← promiseAll (response.items.map (fun item => do
    let url ← fb.getDownloadURL item
    pure { name := item.name, url := url }))
  let sortedItems := sort (compareByName pf) filePromises
  pure sortedItems

/-- The function `fetchStorageItems`: on success `setItemsList(sortedItems)`,
on any throw the `catch` logs the error. -/
def fetchStorageItems (pf : Platform) (fb : Firebase) (path : JSString) (rt : Runtime) :
    Except JSError Runtime :=
  match fetchSortedItems pf fb path with
  | .ok sortedItems => .ok { rt with state := { rt.state with itemsList := sortedItems } }
  | .error error => .ok { rt with console := rt.console ++ [("Error fetching items:", error)] }

/-- The derived `filteredItems` of a render. -/
def filteredItems (pf : Platform) (itemsList : List Entry) (searchTerm : JSString) : List Entry :=
  itemsList.filter (fun item => includes (toLowerCase pf item.name) (toLowerCase pf searchTerm))

/-- The function `handleOpenLink`. -/
def handleOpenLink (linking : Linking) (url : JSString) (rt : Runtime) : Except JSError Runtime :=
  match linking.openURL url with
  | .ok () => .ok rt
  | .error error => .ok { rt with console := rt.console ++ [("Cannot open URL:", error)] }

/-- What can happen to a mounted `App`. -/
inductive Event where
  /-- The effect's `fetchStorageItems(currentPath)` settles against the storage `fb`. -/
  | fetch (fb : Firebase)
  /-- The handler `onChangeText={setSearchTerm}`. -/
  | changeText (text : JSString)
  /-- The handler `onPress={() => setShowPopup(false)}`. -/
  | dismissPopup
  /-- The handler `onPress={() => handleOpenLink(item.url)}`. -/
  | openLink (linking : Linking) (url : JSString)

/-- One event applied to the component. -/
def step (pf : Platform) (rt : Runtime) : Event → Except JSError Runtime
  | .fetch fb => fetchStorageItems pf fb rt.state.currentPath rt
  | .changeText text => .ok { rt with state := { rt.state with searchTerm := text } }
  | .dismissPopup => .ok { rt with state := { rt.state with showPopup := false } }
  | .openLink linking url => handleOpenLink linking url rt

/-- A sequence of events applied in order; an error thrown out of a handler
ends the run. -/
def run (pf : Platform) (rt : Runtime) : List Event → Except JSError Runtime
  | [] => .ok rt
  | ev :: evs =>
    match step pf rt ev with
    | .ok rt1 => run pf rt1 evs
    | .error e => .error e

/-! ## Specification vocabulary -/

/-- A comparator whose "not greater" relation is a total preorder.  ECMA-262
requires `localeCompare` to be a consistent comparator defining a total
ordering on all strings, which makes it one. -/
def TotalPreorder {α : Type} (comparefn : α → α → Int) : Prop :=
  (∀ a b, comparefn a b ≤ 0 ∨ comparefn b a ≤ 0)
  ∧ (∀ a b c, comparefn a b ≤ 0 → comparefn b c ≤ 0 → comparefn a c ≤ 0)

/-- The entries a fetch of `path` against the storage `fb` delivers when it
succeeds: the enumeration resolves and so does the URL of every item. -/
def fetchedEntries (fb : Firebase) (path : JSString) : Option (List Entry) :=
  match fb.listAll (ref path) with
  | .error _ => none
  | .ok response =>
    if response.items.all (fun item => (fb.getDownloadURL item).toBool) then
      some (response.items.filterMap (fun item =>
        match fb.getDownloadURL item with
        | .ok url => some { name := item.name, url := url }
        | .error _ => none))
    else none

/-- The snapshot an event delivers: the sorted entries of a fetch that
succeeded, nothing for any other event. -/
def snapshotOf (pf : Platform) (path : JSString) : Event → Option (List Entry)
  | .fetch fb => (fetchedEntries fb path).map (sort (compareByName pf))
  | _ => none

/-- The last successfully fetched snapshot in a sequence of events, if there
is one: the latest event that delivers a snapshot decides. -/
def lastSnapshot (pf : Platform) (path : JSString) : List Event → Option (List Entry)
  | [] => none
  | ev :: evs =>
    match lastSnapshot pf path evs with
    | some snapshot => some snapshot
    | none => snapshotOf pf path ev

/-! ## A sample platform and sample collaborators -/

/-- Lowercase mapping of the ASCII letters; every other code point maps to
itself. -/
def asciiLowercaseMapping (_before : List Nat) (c : Nat) (_after : List Nat) : List Nat :=
  if 65 ≤ c ∧ c ≤ 90 then [c + 32] else [c]

def asciiLower (s : JSString) : JSString :=
  codePointsToString (toLowercase asciiLowercaseMapping [] (stringToCodePoints s))

/-- Lexicographic comparison of code-unit sequences. -/
def compareUnits : List Nat → List Nat → Int
  | [], [] => 0
  | [], _ :: _ => -1
  | _ :: _, [] => 1
  | c :: s, d :: t => if c < d then -1 else if d < c then 1 else compareUnits s t

/-- A sample collation: by the ASCII-lowercased names first, ties broken by the
code units. -/
def sampleCompare (a b : JSString) : Int :=
  if compareUnits (asciiLower a) (asciiLower b) = 0 then compareUnits a b
  else compareUnits (asciiLower a) (asciiLower b)

def samplePlatform : Platform :=
  { lowercaseMapping := asciiLowercaseMapping, localeCompare := sampleCompare }

/-- The reference of a file at the root of the bucket. -/
def fileRef (name : String) : StorageReference :=
  { fullPath := js name, name := js name }

/-- A storage whose root holds zebra.pdf and alpha.pdf, in that order. -/
def sampleStorage : Firebase :=
  { listAll := fun _ => .ok { prefixes := [], items := [fileRef "zebra.pdf", fileRef "alpha.pdf"] }
    getDownloadURL := fun item => .ok (js "dl/" ++ item.fullPath) }

/-- A storage whose enumeration fails. -/
def offlineStorage : Firebase :=
  { listAll := fun _ => .error { message := "storage/retry-limit-exceeded" }
    getDownloadURL := fun _ => .error { message := "storage/retry-limit-exceeded" } }

/-- A storage that lists zebra.pdf and alpha.pdf but cannot resolve the URL of
alpha.pdf. -/
def brokenStorage : Firebase :=
  { listAll := fun _ => .ok { prefixes := [], items := [fileRef "zebra.pdf", fileRef "alpha.pdf"] }
    getDownloadURL := fun item =>
      if item.name = js "alpha.pdf" then .error { message := "storage/object-not-found" }
      else .ok (js "dl/" ++ item.fullPath) }

/-- A sample collation of primary strength: names that differ only in the case
of ASCII letters compare as equal. -/
def foldingCompare (a b : JSString) : Int :=
  compareUnits (asciiLower a) (asciiLower b)

def foldingPlatform : Platform :=
  { lowercaseMapping := asciiLowercaseMapping, localeCompare := foldingCompare }

def failingLinking : Linking :=
  { openURL := fun _ => .error { message := "Unable to open URL" } }

/-! ## Host functions: what they compute -/

theorem startsWith_iff (s t : JSString) : startsWith s t = true ↔ t <+: s := by
  induction s generalizing t with
  | nil => cases t <;> simp [startsWith]
  | cons c s ih =>
    cases t with
    | nil => simp [startsWith]
    | cons d t =>
      simp only [startsWith, Bool.and_eq_true, decide_eq_true_eq, ih, List.cons_prefix_cons]
      constructor
      · rintro ⟨h, h2⟩; exact ⟨h.symm, h2⟩
      · rintro ⟨h, h2⟩; exact ⟨h.symm, h2⟩

theorem includes_iff (s t : JSString) : includes s t = true ↔ t <:+: s := by
  induction s with
  | nil =>
    simp only [includes, startsWith_iff, List.prefix_nil, List.infix_nil]
  | cons c s ih =>
    simp only [includes, Bool.or_eq_true, startsWith_iff, ih, List.infix_cons_iff]

theorem includes_empty (s : JSString) : includes s [] = true :=
  (includes_iff s []).2 List.nil_infix

theorem toLowerCase_empty (pf : Platform) : toLowerCase pf [] = [] := rfl

theorem sortInsert_eq_orderedInsert {α : Type} (comparefn : α → α → Int) (x : α) (l : List α) :
    sortInsert comparefn x l = List.orderedInsert (fun a b => comparefn a b ≤ 0) x l := by
  induction l with
  | nil => rfl
  | cons y ys ih => simp only [sortInsert, List.orderedInsert, ih]

theorem sort_eq_insertionSort {α : Type} (comparefn : α → α → Int) (l : List α) :
    sort comparefn l = List.insertionSort (fun a b => comparefn a b ≤ 0) l := by
  induction l with
  | nil => rfl
  | cons x xs ih => simp only [sort, List.insertionSort, ih, sortInsert_eq_orderedInsert]

/-! ## Comparators and the sort -/

theorem compareByName_totalPreorder (pf : Platform) (h : TotalPreorder pf.localeCompare) :
    TotalPreorder (compareByName pf) :=
  ⟨fun a b => h.1 a.name b.name, fun a b c => h.2 a.name b.name c.name⟩

theorem sort_perm {α : Type} (comparefn : α → α → Int) (l : List α) :
    List.Perm (sort comparefn l) l := by
  rw [sort_eq_insertionSort]
  exact List.perm_insertionSort _ l

theorem sort_pairwise {α : Type} (comparefn : α → α → Int) (h : TotalPreorder comparefn)
    (l : List α) : (sort comparefn l).Pairwise (fun a b => comparefn a b ≤ 0) := by
  rw [sort_eq_insertionSort]
  haveI : IsTotal α (fun a b => comparefn a b ≤ 0) := ⟨h.1⟩
  haveI : IsTrans α (fun a b => comparefn a b ≤ 0) := ⟨h.2⟩
  exact List.sorted_insertionSort (fun a b => comparefn a b ≤ 0) l

theorem sort_sublist {α : Type} (comparefn : α → α → Int) (l c : List α)
    (hc : c.Pairwise (fun a b => comparefn a b ≤ 0)) (hsub : List.Sublist c l) :
    List.Sublist c (sort comparefn l) := by
  rw [sort_eq_insertionSort]
  exact List.sublist_insertionSort hc hsub

/-! ## `Promise.all` and the fetch -/

theorem promiseAll_map_ok {ε α β : Type} (f : α → Except ε β) (g : α → β) (l : List α)
    (h : ∀ x ∈ l, f x = .ok (g x)) : promiseAll (l.map f) = .ok (l.map g) := by
  induction l with
  | nil => rfl
  | cons x xs ih =>
    have hx := h x (List.mem_cons_self x xs)
    have hxs := ih (fun y hy => h y (List.mem_cons_of_mem x hy))
    simp only [List.map_cons, promiseAll, hx, hxs]

theorem promiseAll_error {ε α : Type} (l : List (Except ε α))
    (h : ∃ p ∈ l, ∃ e, p = .error e) : ∃ e, promiseAll l = .error e := by
  induction l with
  | nil => obtain ⟨p, hp, _⟩ := h; cases hp
  | cons q qs ih =>
    cases q with
    | error e => exact ⟨e, by simp only [promiseAll]⟩
    | ok v =>
      have hqs : ∃ p ∈ qs, ∃ e, p = .error e := by
        obtain ⟨p, hp, e, he⟩ := h
        rcases List.mem_cons.1 hp with hpq | hpq
        · subst he; cases hpq
        · exact ⟨p, hpq, e, he⟩
      obtain ⟨e, he⟩ := ih hqs
      exact ⟨e, by simp only [promiseAll, he]⟩

theorem fetchSortedItems_ok (pf : Platform) (fb : Firebase) (path : JSString)
    (response : ListResult) (urlOf : StorageReference → JSString)
    (hlist : fb.listAll (ref path) = .ok response)
    (hurl : ∀ item ∈ response.items, fb.getDownloadURL item = .ok (urlOf item)) :
    fetchSortedItems pf fb path
      = .ok (sort (compareByName pf)
          (response.items.map (fun item => { name := item.name, url := urlOf item }))) := by
  have hall := promiseAll_map_ok
    (fun item => (do
      let url ← fb.getDownloadURL item
      pure { name := item.name, url := url } : Except JSError Entry))
    (fun item => ({ name := item.name, url := urlOf item } : Entry)) response.items
    (fun item hitem => by
      simp only [hurl item hitem, bind, Except.bind, pure, Except.pure])
  simp only [fetchSortedItems, hlist, bind, Except.bind, pure, Except.pure] at hall ⊢
  rw [hall]

theorem fetchSortedItems_error (pf : Platform) (fb : Firebase) (path : JSString)
    (h : (∃ e, fb.listAll (ref path) = .error e)
      ∨ (∃ response, fb.listAll (ref path) = .ok response
          ∧ ∃ item ∈ response.items, ∃ e, fb.getDownloadURL item = .error e)) :
    ∃ e, fetchSortedItems pf fb path = .error e := by
  rcases h with ⟨e, he⟩ | ⟨response, hlist, item, hitem, e, he⟩
  · exact ⟨e, by simp only [fetchSortedItems, he, bind, Except.bind]⟩
  · obtain ⟨e2, he2⟩ := promiseAll_error
      (response.items.map (fun item => (do
        let url ← fb.getDownloadURL item
        pure { name := item.name, url := url } : Except JSError Entry)))
      ⟨_, List.mem_map_of_mem _ hitem, e, by simp only [he, bind, Except.bind]⟩
    refine ⟨e2, ?_⟩
    simp only [fetchSortedItems, hlist, bind, Except.bind, pure, Except.pure] at he2 ⊢
    rw [he2]

theorem fetchStorageItems_total (pf : Platform) (fb : Firebase) (path : JSString)
    (rt : Runtime) :
    (∃ sortedItems, fetchSortedItems pf fb path = .ok sortedItems
        ∧ fetchStorageItems pf fb path rt
          = .ok { rt with state := { rt.state with itemsList := sortedItems } })
    ∨ (∃ e, fetchSortedItems pf fb path = .error e
        ∧ fetchStorageItems pf fb path rt
          = .ok { rt with console := rt.console ++ [("Error fetching items:", e)] }) := by
  unfold fetchStorageItems
  cases fetchSortedItems pf fb path with
  | ok sortedItems => exact Or.inl ⟨sortedItems, rfl, rfl⟩
  | error e => exact Or.inr ⟨e, rfl, rfl⟩

/-! ## The search filter -/

/-- C1: `filteredItems L T` is exactly the entries of `L` whose lowercased name
contains the lowercased term `T` as a contiguous run of code units, in the order
and with the multiplicities of `L`: it is a sublist of `L`, it is `L` filtered
by that predicate, every entry of it satisfies the predicate, every entry of `L`
satisfying it is kept, and each entry occurs as often as in `L`.  On the sample
platform the listing alpha.pdf, zebra.pdf gives zebra.pdf for "zeb" and nothing
for "xyz". -/
theorem filteredItems_exact (pf : Platform) (L : List Entry) (T : JSString) :
    List.Sublist (filteredItems pf L T) L
    ∧ filteredItems pf L T
        = L.filter (fun e => decide (toLowerCase pf T <:+: toLowerCase pf e.name))
    ∧ (∀ e ∈ filteredItems pf L T,
        ∃ pre post, toLowerCase pf e.name = pre ++ toLowerCase pf T ++ post)
    ∧ (∀ e ∈ L, (∃ pre post, toLowerCase pf e.name = pre ++ toLowerCase pf T ++ post) →
        e ∈ filteredItems pf L T)
    ∧ (∀ e, (filteredItems pf L T).count e
        = if toLowerCase pf T <:+: toLowerCase pf e.name then L.count e else 0)
    ∧ filteredItems samplePlatform
        [⟨js "alpha.pdf", js "u1"⟩, ⟨js "zebra.pdf", js "u2"⟩] (js "zeb")
        = [⟨js "zebra.pdf", js "u2"⟩]
    ∧ filteredItems samplePlatform
        [⟨js "alpha.pdf", js "u1"⟩, ⟨js "zebra.pdf", js "u2"⟩] (js "xyz") = [] := by
  have hfilter : filteredItems pf L T
      = L.filter (fun e => decide (toLowerCase pf T <:+: toLowerCase pf e.name)) := by
    unfold filteredItems
    apply List.filter_congr
    intro e _
    rw [Bool.eq_iff_iff, includes_iff, decide_eq_true_eq]
  refine ⟨?_, hfilter, ?_, ?_, ?_, by decide, by decide⟩
  · exact List.filter_sublist L
  · intro e he
    rw [hfilter, List.mem_filter, decide_eq_true_eq] at he
    obtain ⟨pre, post, h⟩ := he.2
    exact ⟨pre, post, h.symm⟩
  · rintro e he ⟨pre, post, h⟩
    rw [hfilter, List.mem_filter, decide_eq_true_eq]
    exact ⟨he, pre, post, h.symm⟩
  · intro e
    rw [hfilter]
    by_cases h : toLowerCase pf T <:+: toLowerCase pf e.name
    · rw [if_pos h]
      exact List.count_filter (decide_eq_true h)
    · rw [if_neg h, List.count_eq_zero, List.mem_filter, decide_eq_true_eq]
      exact fun hmem => h hmem.2

/-- On the sample platform zebra.pdf is in the listing and its lowercased name
contains the lowercased term "ZEB", so it is in the filtered view. -/
theorem filteredItems_exact_witness :
    (⟨js "zebra.pdf", js "u2"⟩ : Entry)
      ∈ [(⟨js "alpha.pdf", js "u1"⟩ : Entry), ⟨js "zebra.pdf", js "u2"⟩]
    ∧ (∃ pre post, toLowerCase samplePlatform (js "zebra.pdf")
        = pre ++ toLowerCase samplePlatform (js "ZEB") ++ post)
    ∧ (⟨js "zebra.pdf", js "u2"⟩ : Entry)
      ∈ filteredItems samplePlatform
          [⟨js "alpha.pdf", js "u1"⟩, ⟨js "zebra.pdf", js "u2"⟩] (js "ZEB") :=
  ⟨by decide, ⟨[], js "ra.pdf", by decide⟩,
    (filteredItems_exact samplePlatform
      [⟨js "alpha.pdf", js "u1"⟩, ⟨js "zebra.pdf", js "u2"⟩] (js "ZEB")).2.2.2.1
      ⟨js "zebra.pdf", js "u2"⟩ (by decide) ⟨[], js "ra.pdf", by decide⟩⟩

/-- C4: with the empty search term the filtered view is the whole listing, in
the same order. -/
theorem filteredItems_empty_term (pf : Platform) (L : List Entry) :
    filteredItems pf L [] = L := by
  unfold filteredItems
  rw [List.filter_eq_self]
  intro e _
  rw [toLowerCase_empty]
  exact includes_empty _

/-- C5: filtering is idempotent: filtering the filtered view again by the same
term changes nothing. -/
theorem filteredItems_idempotent (pf : Platform) (L : List Entry) (T : JSString) :
    filteredItems pf (filteredItems pf L T) T = filteredItems pf L T := by
  unfold filteredItems
  rw [List.filter_filter]
  apply List.filter_congr
  intro e _
  rw [Bool.and_self]

/-! ## The sample collation is a total preorder -/

theorem compareUnits_eq_zero (a b : List Nat) : compareUnits a b = 0 ↔ a = b := by
  induction a generalizing b with
  | nil => cases b <;> simp [compareUnits]
  | cons c s ih =>
    cases b with
    | nil => simp [compareUnits]
    | cons d t =>
      simp only [compareUnits, List.cons.injEq]
      split_ifs with h1 h2
      · constructor
        · intro h; exact absurd h (by decide)
        · rintro ⟨h, _⟩; exact absurd h (Nat.ne_of_lt h1)
      · constructor
        · intro h; exact absurd h (by decide)
        · rintro ⟨h, _⟩; exact absurd h.symm (Nat.ne_of_lt h2)
      · rw [ih]
        constructor
        · intro h; exact ⟨by omega, h⟩
        · intro h; exact h.2

theorem compareUnits_swap (a b : List Nat) : compareUnits b a = - compareUnits a b := by
  induction a generalizing b with
  | nil => cases b <;> simp [compareUnits]
  | cons c s ih =>
    cases b with
    | nil => simp [compareUnits]
    | cons d t =>
      simp only [compareUnits]
      split_ifs <;> first | omega | exact ih t

theorem compareUnits_trans (a b c : List Nat) (hab : compareUnits a b ≤ 0)
    (hbc : compareUnits b c ≤ 0) : compareUnits a c ≤ 0 := by
  induction a generalizing b c with
  | nil => cases c <;> simp [compareUnits]
  | cons x s ih =>
    cases b with
    | nil => simp [compareUnits] at hab
    | cons y t =>
      cases c with
      | nil => simp [compareUnits] at hbc
      | cons z u =>
        simp only [compareUnits] at hab hbc ⊢
        split_ifs at hab hbc ⊢ <;> first | omega | exact ih t u hab hbc

theorem sampleCompare_totalPreorder : TotalPreorder samplePlatform.localeCompare := by
  constructor
  · intro a b
    show sampleCompare a b ≤ 0 ∨ sampleCompare b a ≤ 0
    unfold sampleCompare
    have h1 := compareUnits_swap (asciiLower a) (asciiLower b)
    have h2 := compareUnits_swap a b
    split_ifs <;> omega
  · intro a b c
    show sampleCompare a b ≤ 0 → sampleCompare b c ≤ 0 → sampleCompare a c ≤ 0
    unfold sampleCompare
    intro hab hbc
    have hswap := compareUnits_swap (asciiLower a) (asciiLower b)
    generalize asciiLower a = ka at hab hswap ⊢
    generalize asciiLower b = kb at hab hbc hswap ⊢
    generalize asciiLower c = kc at hbc ⊢
    by_cases h1 : compareUnits ka kb = 0
    · rw [if_pos h1] at hab
      have hkab := (compareUnits_eq_zero _ _).1 h1
      subst hkab
      by_cases h2 : compareUnits ka kc = 0
      · rw [if_pos h2] at hbc ⊢
        exact compareUnits_trans a b c hab hbc
      · rw [if_neg h2] at hbc ⊢
        exact hbc
    · rw [if_neg h1] at hab
      by_cases h2 : compareUnits kb kc = 0
      · have hkbc := (compareUnits_eq_zero _ _).1 h2
        subst hkbc
        rw [if_neg h1]
        exact hab
      · rw [if_neg h2] at hbc
        have hac := compareUnits_trans ka kb kc hab hbc
        by_cases h3 : compareUnits ka kc = 0
        · have hkac := (compareUnits_eq_zero _ _).1 h3
          subst hkac
          omega
        · rw [if_neg h3]
          exact hac

/-! ## The fetch -/

/-- C2: when the enumeration of `path` resolves with items i_1..i_n and every
URL resolves, `fetchStorageItems` completes and the listing it stores is a
permutation of the entries `{name: i_k.name, url: urlOf i_k}` (whatever the
listing was before), every adjacent pair of it is in ascending order of name
under `localeCompare`, and nothing else of the state or the console changes. -/
theorem fetch_success_sorted_permutation (pf : Platform) (fb : Firebase) (path : JSString)
    (rt : Runtime) (response : ListResult) (urlOf : StorageReference → JSString)
    (hcmp : TotalPreorder pf.localeCompare)
    (hlist : fb.listAll (ref path) = .ok response)
    (hurl : ∀ item ∈ response.items, fb.getDownloadURL item = .ok (urlOf item)) :
    ∃ rt1, fetchStorageItems pf fb path rt = .ok rt1
      ∧ List.Perm rt1.state.itemsList
          (response.items.map (fun item => { name := item.name, url := urlOf item }))
      ∧ List.Chain' (fun a b => pf.localeCompare a.name b.name ≤ 0) rt1.state.itemsList
      ∧ rt1.state.currentPath = rt.state.currentPath
      ∧ rt1.state.searchTerm = rt.state.searchTerm
      ∧ rt1.state.showPopup = rt.state.showPopup
      ∧ rt1.console = rt.console := by
  have hok := fetchSortedItems_ok pf fb path response urlOf hlist hurl
  refine ⟨{ rt with state := { rt.state with itemsList := (sort (compareByName pf)
      (response.items.map (fun item => { name := item.name, url := urlOf item }))) } },
    ?_, ?_, ?_, rfl, rfl, rfl, rfl⟩
  · simp only [fetchStorageItems, hok]
  · exact sort_perm _ _
  · exact List.Pairwise.chain' (sort_pairwise _ (compareByName_totalPreorder pf hcmp) _)

/-- The sample storage lists zebra.pdf, alpha.pdf; the fetch stores alpha.pdf,
zebra.pdf. -/
theorem fetch_success_sorted_permutation_witness :
    TotalPreorder samplePlatform.localeCompare
    ∧ (fetchStorageItems samplePlatform sampleStorage [] initialRuntime).toOption.map
        (fun rt => rt.state.itemsList.map Entry.name) = some [js "alpha.pdf", js "zebra.pdf"]
    ∧ ∃ rt1, fetchStorageItems samplePlatform sampleStorage [] initialRuntime = .ok rt1
      ∧ List.Perm rt1.state.itemsList
          ([fileRef "zebra.pdf", fileRef "alpha.pdf"].map
            (fun item => { name := item.name, url := js "dl/" ++ item.fullPath }))
      ∧ List.Chain' (fun a b => samplePlatform.localeCompare a.name b.name ≤ 0)
          rt1.state.itemsList
      ∧ rt1.state.currentPath = initialRuntime.state.currentPath
      ∧ rt1.state.searchTerm = initialRuntime.state.searchTerm
      ∧ rt1.state.showPopup = initialRuntime.state.showPopup
      ∧ rt1.console = initialRuntime.console :=
  ⟨sampleCompare_totalPreorder, by decide,
    fetch_success_sorted_permutation samplePlatform sampleStorage [] initialRuntime
      { prefixes := [], items := [fileRef "zebra.pdf", fileRef "alpha.pdf"] }
      (fun item => js "dl/" ++ item.fullPath) sampleCompare_totalPreorder rfl
      (fun _ _ => rfl)⟩

/-- C3: when the fetch fails, because the enumeration fails or because the URL
of at least one listed item fails to resolve (whatever happens for the others),
`fetchStorageItems` still completes without raising, the whole component state
(the listing included) is what it was before, and one line is logged. -/
theorem fetch_failure_keeps_state (pf : Platform) (fb : Firebase) (path : JSString)
    (rt : Runtime)
    (hfail : (∃ e, fb.listAll (ref path) = .error e)
      ∨ (∃ response, fb.listAll (ref path) = .ok response
          ∧ ∃ item ∈ response.items, ∃ e, fb.getDownloadURL item = .error e)) :
    ∃ rt1, fetchStorageItems pf fb path rt = .ok rt1
      ∧ rt1.state.itemsList = rt.state.itemsList
      ∧ rt1.state = rt.state
      ∧ ∃ e, rt1.console = rt.console ++ [("Error fetching items:", e)] := by
  obtain ⟨e, he⟩ := fetchSortedItems_error pf fb path hfail
  refine ⟨{ rt with console := rt.console ++ [("Error fetching items:", e)] },
    ?_, rfl, rfl, e, rfl⟩
  simp only [fetchStorageItems, he]

/-- The broken storage resolves zebra.pdf but not alpha.pdf: a listing fetched
before stays as it was, zebra.pdf is not shown. -/
theorem fetch_failure_keeps_state_witness :
    ((∃ e, brokenStorage.listAll (ref []) = .error e)
      ∨ (∃ response, brokenStorage.listAll (ref []) = .ok response
          ∧ ∃ item ∈ response.items, ∃ e, brokenStorage.getDownloadURL item = .error e))
    ∧ brokenStorage.getDownloadURL (fileRef "zebra.pdf") = .ok (js "dl/zebra.pdf")
    ∧ ∃ rt1, fetchStorageItems samplePlatform brokenStorage []
          { initialRuntime with state :=
              { initialState with itemsList := [⟨js "old.pdf", js "dl/old.pdf"⟩] } } = .ok rt1
      ∧ rt1.state.itemsList = [⟨js "old.pdf", js "dl/old.pdf"⟩]
      ∧ rt1.state = { initialState with itemsList := [⟨js "old.pdf", js "dl/old.pdf"⟩] }
      ∧ ∃ e, rt1.console = [] ++ [("Error fetching items:", e)] :=
  have hfail : (∃ e, brokenStorage.listAll (ref []) = .error e)
      ∨ (∃ response, brokenStorage.listAll (ref []) = .ok response
          ∧ ∃ item ∈ response.items, ∃ e, brokenStorage.getDownloadURL item = .error e) :=
    Or.inr ⟨_, rfl, fileRef "alpha.pdf", by decide, _, rfl⟩
  ⟨hfail, rfl, fetch_failure_keeps_state samplePlatform brokenStorage [] _ hfail⟩

/-- C6: the sort applied by the fetch is stable: two entries whose names compare
as equal, the first listed before the second, come out in that order; more
generally any run of entries of the enumeration whose names compare as equal
pairwise keeps its order in the sorted listing. -/
theorem sort_by_name_stable (pf : Platform) (l : List Entry) :
    (∀ a b : Entry, List.Sublist [a, b] l → pf.localeCompare a.name b.name = 0 →
      List.Sublist [a, b] (sort (compareByName pf) l))
    ∧ (∀ c : List Entry, List.Sublist c l →
        c.Pairwise (fun a b => pf.localeCompare a.name b.name = 0) →
        List.Sublist c (sort (compareByName pf) l)) := by
  have hgen : ∀ c : List Entry, List.Sublist c l →
      c.Pairwise (fun a b => pf.localeCompare a.name b.name = 0) →
      List.Sublist c (sort (compareByName pf) l) := by
    intro c hsub heq
    refine sort_sublist (compareByName pf) l c (heq.imp ?_) hsub
    intro a b hab
    show pf.localeCompare a.name b.name ≤ 0
    rw [hab]
  refine ⟨?_, hgen⟩
  intro a b hsub heq
  exact hgen [a, b] hsub (List.pairwise_pair.2 heq)

/-- Under a collation that ignores case, A.pdf listed before a.pdf stays before
it; and the names b.pdf, A.pdf, a2.pdf are ordered A.pdf, a2.pdf, b.pdf. -/
theorem sort_by_name_stable_witness :
    List.Sublist [(⟨js "A.pdf", js "1"⟩ : Entry), ⟨js "a.pdf", js "2"⟩]
      [⟨js "b.pdf", js "0"⟩, ⟨js "A.pdf", js "1"⟩, ⟨js "a.pdf", js "2"⟩]
    ∧ foldingPlatform.localeCompare (js "A.pdf") (js "a.pdf") = 0
    ∧ List.Sublist [(⟨js "A.pdf", js "1"⟩ : Entry), ⟨js "a.pdf", js "2"⟩]
        (sort (compareByName foldingPlatform)
          [⟨js "b.pdf", js "0"⟩, ⟨js "A.pdf", js "1"⟩, ⟨js "a.pdf", js "2"⟩])
    ∧ sort (compareByName foldingPlatform)
        [⟨js "b.pdf", js "0"⟩, ⟨js "a.pdf", js "2"⟩, ⟨js "A.pdf", js "1"⟩]
      = [⟨js "a.pdf", js "2"⟩, ⟨js "A.pdf", js "1"⟩, ⟨js "b.pdf", js "0"⟩]
    ∧ (sort (compareByName samplePlatform)
        [⟨js "b.pdf", []⟩, ⟨js "A.pdf", []⟩, ⟨js "a2.pdf", []⟩]).map Entry.name
      = [js "A.pdf", js "a2.pdf", js "b.pdf"] :=
  ⟨by decide, by decide,
    (sort_by_name_stable foldingPlatform
      [⟨js "b.pdf", js "0"⟩, ⟨js "A.pdf", js "1"⟩, ⟨js "a.pdf", js "2"⟩]).1
      ⟨js "A.pdf", js "1"⟩ ⟨js "a.pdf", js "2"⟩ (by decide) (by decide),
    by decide, by decide⟩

/-! ## Opening a link -/

/-- C9: `handleOpenLink` completes without raising whether `Linking.openURL`
resolves or rejects, and in both cases the component state (listing, search
term, current path, pop-up flag) is what it was before; a rejection is only
logged. -/
theorem handleOpenLink_keeps_state (linking : Linking) (url : JSString) (rt : Runtime) :
    ∃ rt1, handleOpenLink linking url rt = .ok rt1
      ∧ rt1.state = rt.state
      ∧ rt1.state.itemsList = rt.state.itemsList
      ∧ rt1.state.searchTerm = rt.state.searchTerm
      ∧ rt1.state.currentPath = rt.state.currentPath
      ∧ rt1.state.showPopup = rt.state.showPopup
      ∧ ((linking.openURL url = .ok () ∧ rt1.console = rt.console)
        ∨ ∃ e, linking.openURL url = .error e
            ∧ rt1.console = rt.console ++ [("Cannot open URL:", e)]) := by
  unfold handleOpenLink
  cases h : linking.openURL url with
  | ok u => exact ⟨rt, rfl, rfl, rfl, rfl, rfl, rfl, Or.inl ⟨rfl, rfl⟩⟩
  | error e => exact ⟨_, rfl, rfl, rfl, rfl, rfl, rfl, Or.inr ⟨e, rfl, rfl⟩⟩

/-! ## Sequences of events -/

theorem promiseAll_resolve (fb : Firebase) (items : List StorageReference) :
    (promiseAll (items.map (fun item => (do
        let url ← fb.getDownloadURL item
        pure { name := item.name, url := url } : Except JSError Entry)))).toOption
      = if items.all (fun item => (fb.getDownloadURL item).toBool) then
          some (items.filterMap (fun item =>
            match fb.getDownloadURL item with
            | .ok url => some ({ name := item.name, url := url } : Entry)
            | .error _ => none))
        else none := by
  induction items with
  | nil => rfl
  | cons x xs ih =>
    cases hx : fb.getDownloadURL x with
    | error e =>
      simp only [List.map_cons, hx, bind, Except.bind, promiseAll, Except.toOption,
        List.all_cons, Except.toBool, Bool.false_and, Bool.false_eq_true, if_false]
    | ok u =>
      simp only [List.map_cons, hx, bind, Except.bind, pure, Except.pure, promiseAll,
        List.all_cons, Except.toBool, Bool.true_and, List.filterMap_cons] at ih ⊢
      generalize promiseAll (List.map _ xs) = rest at ih ⊢
      cases rest with
      | error e =>
        simp only [Except.toOption] at ih ⊢
        split_ifs at ih ⊢ with hall
        rfl
      | ok vs =>
        simp only [Except.toOption] at ih ⊢
        split_ifs at ih ⊢ with hall
        cases ih
        rfl

theorem fetchSortedItems_toOption (pf : Platform) (fb : Firebase) (path : JSString) :
    (fetchSortedItems pf fb path).toOption
      = (fetchedEntries fb path).map (sort (compareByName pf)) := by
  unfold fetchedEntries
  cases hlist : fb.listAll (ref path) with
  | error e =>
    simp only [fetchSortedItems, hlist, bind, Except.bind, Except.toOption, Option.map_none']
  | ok response =>
    have hres := promiseAll_resolve fb response.items
    simp only [fetchSortedItems, hlist, bind, Except.bind, pure, Except.pure] at hres ⊢
    generalize promiseAll (List.map _ response.items) = settled at hres ⊢
    cases settled with
    | error e =>
      simp only [Except.toOption] at hres ⊢
      rw [← hres, Option.map_none']
    | ok vs =>
      simp only [Except.toOption] at hres ⊢
      rw [← hres, Option.map_some']

theorem fetchStorageItems_spec (pf : Platform) (fb : Firebase) (path : JSString)
    (rt : Runtime) :
    ∃ rt1, fetchStorageItems pf fb path rt = .ok rt1
      ∧ rt1.state.currentPath = rt.state.currentPath
      ∧ rt1.state.searchTerm = rt.state.searchTerm
      ∧ rt1.state.showPopup = rt.state.showPopup
      ∧ rt1.state.itemsList
        = ((fetchedEntries fb path).map (sort (compareByName pf))).getD rt.state.itemsList := by
  have hopt := fetchSortedItems_toOption pf fb path
  rcases fetchStorageItems_total pf fb path rt with ⟨sortedItems, hs, hrun⟩ | ⟨e, hs, hrun⟩
  · refine ⟨_, hrun, rfl, rfl, rfl, ?_⟩
    rw [← hopt, hs]
    rfl
  · refine ⟨_, hrun, rfl, rfl, rfl, ?_⟩
    rw [← hopt, hs]
    rfl

theorem step_spec (pf : Platform) (rt : Runtime) (ev : Event) :
    ∃ rt1, step pf rt ev = .ok rt1
      ∧ rt1.state.currentPath = rt.state.currentPath
      ∧ (rt1.state.showPopup = rt.state.showPopup ∨ rt1.state.showPopup = false)
      ∧ rt1.state.itemsList
        = (snapshotOf pf rt.state.currentPath ev).getD rt.state.itemsList := by
  cases ev with
  | fetch fb =>
    obtain ⟨rt1, h1, h2, _, h4, h5⟩ := fetchStorageItems_spec pf fb rt.state.currentPath rt
    exact ⟨rt1, h1, h2, Or.inl h4, h5⟩
  | changeText text => exact ⟨_, rfl, rfl, Or.inl rfl, rfl⟩
  | dismissPopup => exact ⟨_, rfl, rfl, Or.inr rfl, rfl⟩
  | openLink linking url =>
    show ∃ rt1, handleOpenLink linking url rt = .ok rt1 ∧ _
    unfold handleOpenLink
    cases linking.openURL url with
    | ok u => exact ⟨_, rfl, rfl, Or.inl rfl, rfl⟩
    | error e => exact ⟨_, rfl, rfl, Or.inl rfl, rfl⟩

theorem run_cons (pf : Platform) (rt rt1 : Runtime) (ev : Event) (evs : List Event)
    (h : step pf rt ev = .ok rt1) : run pf rt (ev :: evs) = run pf rt1 evs := by
  simp only [run, h]

theorem run_invariant (pf : Platform) (P : Runtime → Prop)
    (hstep : ∀ rt ev rt1, P rt → step pf rt ev = .ok rt1 → P rt1)
    (rt : Runtime) (evs : List Event) (h : P rt) :
    ∃ rt1, run pf rt evs = .ok rt1 ∧ P rt1 := by
  induction evs generalizing rt with
  | nil => exact ⟨rt, rfl, h⟩
  | cons ev evs ih =>
    obtain ⟨rt1, h1, _⟩ := step_spec pf rt ev
    rw [run_cons pf rt rt1 ev evs h1]
    exact ih rt1 (hstep rt ev rt1 h h1)

theorem run_lastSnapshot (pf : Platform) (rt : Runtime) (evs : List Event) :
    ∃ rt1, run pf rt evs = .ok rt1
      ∧ rt1.state.currentPath = rt.state.currentPath
      ∧ rt1.state.itemsList
        = (lastSnapshot pf rt.state.currentPath evs).getD rt.state.itemsList := by
  induction evs generalizing rt with
  | nil => exact ⟨rt, rfl, rfl, rfl⟩
  | cons ev evs ih =>
    obtain ⟨rt1, h1, hpath, _, hitems⟩ := step_spec pf rt ev
    obtain ⟨rt2, h2, hpath2, hitems2⟩ := ih rt1
    refine ⟨rt2, ?_, hpath2.trans hpath, ?_⟩
    · rw [run_cons pf rt rt1 ev evs h1, h2]
    · rw [hitems2, hpath, hitems]
      simp only [lastSnapshot]
      cases lastSnapshot pf rt.state.currentPath evs with
      | none => rfl
      | some snapshot => rfl

theorem run_append (pf : Platform) (rt rt1 : Runtime) (evs more : List Event)
    (h : run pf rt evs = .ok rt1) : run pf rt (evs ++ more) = run pf rt1 more := by
  induction evs generalizing rt with
  | nil =>
    simp only [run, Except.ok.injEq] at h
    rw [List.nil_append, h]
  | cons ev evs ih =>
    obtain ⟨rt2, h2, _⟩ := step_spec pf rt ev
    rw [run_cons pf rt rt2 ev evs h2] at h
    rw [List.cons_append, run_cons pf rt rt2 ev _ h2]
    exact ih rt2 h

/-- C7: after any sequence of events from the initial state the component has
not raised, the current path is still the root, and the listing in state is the
last successfully fetched snapshot for that path: the sorted entries of the most
recent fetch that succeeded (the initial empty listing while none has).  One
more fetch changes the listing to its sorted entries when it succeeds and leaves
the snapshot in place when it fails. -/
theorem listing_is_last_snapshot (pf : Platform) (evs : List Event) :
    ∃ rt, run pf initialRuntime evs = .ok rt
      ∧ rt.state.currentPath = []
      ∧ rt.state.itemsList = (lastSnapshot pf rt.state.currentPath evs).getD []
      ∧ ∀ fb : Firebase, ∃ rt1, run pf initialRuntime (evs ++ [Event.fetch fb]) = .ok rt1
          ∧ rt1.state.itemsList
            = match fetchedEntries fb rt.state.currentPath with
              | some entries => sort (compareByName pf) entries
              | none => rt.state.itemsList := by
  obtain ⟨rt, hrun, hpath, hitems⟩ := run_lastSnapshot pf initialRuntime evs
  refine ⟨rt, hrun, hpath, ?_, ?_⟩
  · rw [hitems, hpath]
    rfl
  · intro fb
    obtain ⟨rt1, h1, _, _, _, h5⟩ := fetchStorageItems_spec pf fb rt.state.currentPath rt
    refine ⟨rt1, ?_, ?_⟩
    · rw [run_append pf initialRuntime rt evs _ hrun]
      simp only [run, step, h1]
    · rw [h5]
      cases fetchedEntries fb rt.state.currentPath with
      | none => rfl
      | some entries => rfl

/-- C8: the welcome pop-up is shown in the initial state, the dismiss button
hides it, and once it is hidden it stays hidden after every sequence of events
(fetches that succeed or fail, search-term changes, opened links, repeated
dismissals), none of which raises. -/
theorem popup_dismissal_is_one_way (pf : Platform) :
    initialRuntime.state.showPopup = true
    ∧ (∀ rt : Runtime, ∃ rt1, step pf rt Event.dismissPopup = .ok rt1
        ∧ rt1.state.showPopup = false)
    ∧ (∀ (rt : Runtime) (evs : List Event), rt.state.showPopup = false →
        ∃ rt1, run pf rt evs = .ok rt1 ∧ rt1.state.showPopup = false) := by
  refine ⟨rfl, fun rt => ⟨_, rfl, rfl⟩, ?_⟩
  intro rt evs h
  refine run_invariant pf (fun r => r.state.showPopup = false) ?_ rt evs h
  intro r ev r1 hr hstep
  obtain ⟨r2, h2, _, hpop, _⟩ := step_spec pf r ev
  rw [hstep, Except.ok.injEq] at h2
  subst h2
  rcases hpop with hpop | hpop
  · rw [hpop]
    exact hr
  · exact hpop

/-- After the dismissal, a fetch that succeeds, one that fails, a search, an
opened link that fails and a second dismissal leave the pop-up hidden. -/
theorem popup_dismissal_is_one_way_witness :
    (∃ rt0, step samplePlatform initialRuntime Event.dismissPopup = .ok rt0
      ∧ rt0.state.showPopup = false
      ∧ ∃ rt1, run samplePlatform rt0
          [Event.fetch sampleStorage, Event.fetch brokenStorage, Event.changeText (js "zeb"),
            Event.openLink failingLinking (js "dl/zebra.pdf"), Event.dismissPopup] = .ok rt1
        ∧ rt1.state.showPopup = false) :=
  ⟨{ initialRuntime with state := { initialState with showPopup := false } }, rfl, rfl,
    (popup_dismissal_is_one_way samplePlatform).2.2
      { initialRuntime with state := { initialState with showPopup := false } }
      [Event.fetch sampleStorage, Event.fetch brokenStorage, Event.changeText (js "zeb"),
        Event.openLink failingLinking (js "dl/zebra.pdf"), Event.dismissPopup] rfl⟩

/-- C10: when `localeCompare` is a total preorder, after any sequence of events
from the initial state the rows handed to the list view, `filteredItems` of the
listing and the search term in state, are sorted ascending by name. -/
theorem displayed_rows_sorted (pf : Platform) (hcmp : TotalPreorder pf.localeCompare)
    (evs : List Event) :
    ∃ rt, run pf initialRuntime evs = .ok rt
      ∧ (filteredItems pf rt.state.itemsList rt.state.searchTerm).Pairwise
          (fun a b => pf.localeCompare a.name b.name ≤ 0) := by
  obtain ⟨rt, hrun, hsorted⟩ := run_invariant pf
    (fun r => r.state.itemsList.Pairwise (fun a b => pf.localeCompare a.name b.name ≤ 0))
    (by
      intro r ev r1 hr hstep
      obtain ⟨r2, h2, _, _, hitems⟩ := step_spec pf r ev
      rw [hstep, Except.ok.injEq] at h2
      subst h2
      show r1.state.itemsList.Pairwise _
      rw [hitems]
      cases ev with
      | fetch fb =>
        simp only [snapshotOf]
        cases fetchedEntries fb r.state.currentPath with
        | none => exact hr
        | some entries => exact sort_pairwise _ (compareByName_totalPreorder pf hcmp) entries
      | changeText text => exact hr
      | dismissPopup => exact hr
      | openLink linking url => exact hr)
    initialRuntime evs List.Pairwise.nil
  exact ⟨rt, hrun, hsorted.sublist (List.filter_sublist _)⟩

/-- On the sample platform, after a fetch of zebra.pdf, alpha.pdf, a failed
fetch and the search term "pdf", the rows are alpha.pdf, zebra.pdf. -/
theorem displayed_rows_sorted_witness :
    TotalPreorder samplePlatform.localeCompare
    ∧ (run samplePlatform initialRuntime
        [Event.fetch sampleStorage, Event.fetch offlineStorage,
          Event.changeText (js "PDF")]).toOption.map
        (fun rt => (filteredItems samplePlatform rt.state.itemsList rt.state.searchTerm).map
          Entry.name) = some [js "alpha.pdf", js "zebra.pdf"]
    ∧ ∃ rt, run samplePlatform initialRuntime
        [Event.fetch sampleStorage, Event.fetch offlineStorage,
          Event.changeText (js "PDF")] = .ok rt
      ∧ (filteredItems samplePlatform rt.state.itemsList rt.state.searchTerm).Pairwise
          (fun a b => samplePlatform.localeCompare a.name b.name ≤ 0) :=
  ⟨sampleCompare_totalPreorder, by decide,
    displayed_rows_sorted samplePlatform sampleCompare_totalPreorder
      [Event.fetch sampleStorage, Event.fetch offlineStorage, Event.changeText (js "PDF")]⟩

end BibliotecaMobil
